import Mathlib

/-!
Verification of the DCMConverter pixel pipeline against its specification.

The Python source (src/dcm_converter.py) is embedded shallowly:

* an n-dimensional numpy array becomes `NDArray`: a dtype tag, a shape
  (list of dimension sizes) and the row-major flat data, with integer
  element values (the stored DICOM samples are integers; the float64
  intermediate arithmetic of the source is modelled exactly over ℚ);
* the pydicom dataset becomes `Dataset`: the attributes the core reads,
  with the external `apply_voi_lut` delegate modelled as an oracle field
  returning `none` when the library call raises;
* Python exceptions become `Option`/`Except` results.

`normalizePixelArray` embeds `DCMConverter._normalize_pixel_array`
(windowing, MONOCHROME1 inversion, rescale to uint8) and
`extractFrames` embeds `DCMConverter._extract_frames`
(shape classification plus the per-frame normalization loop).
-/

/-- Element dtype of a pixel array (the dtypes the converter discriminates). -/
inductive DType where
  | uint8
  | uint16
  | int16
  | float64
deriving DecidableEq, Repr

/-- PhotometricInterpretation values the converter reads
(`getattr(dataset, 'PhotometricInterpretation', '')`); any string other
than MONOCHROME1 only matters through not being MONOCHROME1. -/
inductive Photometric where
  | MONOCHROME1
  | MONOCHROME2
  | RGB
  | other
deriving DecidableEq, Repr

/-- A WindowCenter / WindowWidth attribute value: pydicom yields either a
single numeric or a list of numerics (`isinstance(wc, (list, tuple))`). -/
inductive WinVal where
  | scalar (v : Int)
  | vals (l : List Int)
deriving DecidableEq, Repr

/-- Yields `window_center[0]` when list-valued, the scalar itself otherwise;
`none` models the IndexError raised on an empty list. -/
def WinVal.first : WinVal → Option Int
  | .scalar v => some v
  | .vals l => l.head?

/-- An n-dimensional numpy array: dtype, shape and row-major flat data. -/
structure NDArray where
  dtype : DType
  shape : List Nat
  data : List Int
deriving DecidableEq, Repr

/-- The pydicom dataset attributes `_normalize_pixel_array` reads.
`voiLut` is the external `apply_voi_lut` delegate: `none` models the
call raising (the caught exception path of lines 74-95). -/
structure Dataset where
  photometric : Photometric
  windowCenter : Option WinVal
  windowWidth : Option WinVal
  voiLut : NDArray → Option NDArray

/-- The manual windowing parameters, if obtainable: both attributes must be
present (`hasattr` checks of line 78) and taking the first element of a
list-valued attribute must not raise. -/
def manualWindow (ds : Dataset) : Option (Int × Int) :=
  match ds.windowCenter, ds.windowWidth with
  | some wc, some ww =>
    match wc.first, ww.first with
    | some c, some w => some (c, w)
    | _, _ => none
  | _, _ => none

/-- Embeds `np.clip(v, lo, hi)`: `lo` if `v < lo`, else `hi` if `v > hi`, else `v`
(when `lo > hi` numpy yields `hi`, as does `min hi (max lo v)`). -/
def clipVal (lo hi v : Int) : Int := min hi (max lo v)

/-- Lines 69-95 of `_normalize_pixel_array`: try `apply_voi_lut`; on
failure fall back to manual center/width windowing
(`img_min = c - w // 2`, `img_max = c + w // 2`, `np.clip`); if that also
fails or the attributes are absent, the frame passes through unchanged.
All exceptions are caught, so this phase is total. -/
def applyWindowing (ds : Dataset) (a : NDArray) : NDArray :=
  match ds.voiLut a with
  | some b => b
  | none =>
    match manualWindow ds with
    | some (c, w) =>
      ⟨a.dtype, a.shape, a.data.map (clipVal (c - Int.fdiv w 2) (c + Int.fdiv w 2))⟩
    | none => a

/-- Reduction of an integer into the representable range of a dtype:
numpy integer arithmetic wraps modulo 2^bits (int16 into
[-32768, 32767], uint16 into [0, 65535], uint8 into [0, 255]); float64
values do not wrap. -/
def wrapDType : DType → Int → Int
  | DType.uint8, v => v % 256
  | DType.uint16, v => v % 65536
  | DType.int16, v => (v + 32768) % 65536 - 32768
  | DType.float64, v => v

/-- Lines 97-103: MONOCHROME1 inversion `pixel_array = np.max(pixel_array)
- pixel_array`; `none` models `np.max` raising on an empty array. The
subtraction is carried out in the array's own dtype, so on integer
dtypes it wraps (e.g. int16: 32767 - (-32768) gives -1). -/
def applyPhotometric (ds : Dataset) (a : NDArray) : Option NDArray :=
  if ds.photometric = Photometric.MONOCHROME1 then
    match a.data.max? with
    | some m => some ⟨a.dtype, a.shape, a.data.map (fun v => wrapDType a.dtype (m - v))⟩
    | none => none
  else some a

/-- One element of the rescale of lines 114-117:
`(v - mn) / (mx - mn) * 255.0`, `np.clip(_, 0, 255)`, `.astype(np.uint8)`.
The float64 arithmetic is modelled exactly over ℚ; the uint8 cast
truncates toward zero, which on the clipped nonnegative value is the
floor. -/
def normVal (mn mx v : Int) : Int :=
  Int.floor (min (255 : ℚ) (max 0 (((v : ℚ) - (mn : ℚ)) / ((mx : ℚ) - (mn : ℚ)) * 255)))

/-- Lines 105-121 of `_normalize_pixel_array`, the Intensity Normalizer:
uint8 frames pass through; otherwise compute min and max (`none` models
`np.min`/`np.max` raising on an empty array), rescale when `max > min`,
and fill with 128 when the frame is constant. -/
def rescaleToUint8 (a : NDArray) : Option NDArray :=
  if a.dtype = DType.uint8 then some a
  else
    match a.data.min?, a.data.max? with
    | some mn, some mx =>
      if mn < mx then some ⟨DType.uint8, a.shape, a.data.map (normVal mn mx)⟩
      else some ⟨DType.uint8, a.shape, a.data.map (fun _ => 128)⟩
    | _, _ => none

/-- Embeds `DCMConverter._normalize_pixel_array`: windowing, then photometric
inversion, then rescale to uint8; `none` models the function raising. -/
def normalizePixelArray (ds : Dataset) (a : NDArray) : Option NDArray :=
  (applyPhotometric ds (applyWindowing ds a)).bind rescaleToUint8

/-- Errors surfaced by `_extract_frames`: the ValueError on an unsupported
buffer rank (line 178) and the ValueError when no frame survives
normalization (line 192). -/
inductive ConvError where
  | shapeError
  | noUsableFrames
deriving DecidableEq, Repr

/-- Embeds `pixel_array[i]`: the i-th slice along the first axis — a contiguous
row-major block of the tail shape's size. -/
def sliceFirst (a : NDArray) (i : Nat) : NDArray :=
  ⟨a.dtype, a.shape.tail, (a.data.drop (i * a.shape.tail.prod)).take a.shape.tail.prod⟩

/-- Embeds `pixel_array[i, :, :, 0]` for shape (F, H, W, 1): the contiguous first
axis slice with the trailing singleton squeezed away. -/
def sliceFirstSqueeze (a : NDArray) (i : Nat) : NDArray :=
  ⟨a.dtype, a.shape.tail.dropLast, (a.data.drop (i * a.shape.tail.prod)).take a.shape.tail.prod⟩

/-- Embeds `pixel_array[:, :, i]` for shape (H, W, F): element (r, c) of the
result sits at flat index (r*W + c)*F + i of the source. -/
def sliceLast3 (a : NDArray) (i : Nat) : NDArray :=
  match a.shape with
  | [h, w, f] => ⟨a.dtype, [h, w], (List.range (h * w)).map (fun j => a.data.getD (j * f + i) 0)⟩
  | _ => a

/-- Lines 141-178 of `_extract_frames`: the shape classification that
turns the decoded buffer into the list of raw frames, in storage order,
or raises on an unsupported rank. -/
def segmentRaw (a : NDArray) : Except ConvError (List NDArray) :=
  match a.shape with
  | [_, _] => .ok [a]
  | [s0, s1, s2] =>
    if s2 = 3 then .ok [a]
    else if s0 < s1 ∧ s0 < s2 then .ok ((List.range s0).map (sliceFirst a))
    else if 3 < s2 then .ok ((List.range s2).map (sliceLast3 a))
    else .ok [a]
  | [s0, _, _, s3] =>
    if s3 = 1 then .ok ((List.range s0).map (sliceFirstSqueeze a))
    else if s3 = 3 then .ok ((List.range s0).map (sliceFirst a))
    else .ok [sliceFirst a 0]
  | _ => .error .shapeError

/-- Lines 141-194 of `_extract_frames`: classification followed by the
per-frame normalization loop; a frame whose normalization raises is
skipped (`except ... continue`), and the empty survivor list raises
"No frames could be successfully normalized". -/
def extractFrames (ds : Dataset) (a : NDArray) : Except ConvError (List NDArray) :=
  match segmentRaw a with
  | .error e => .error e
  | .ok frames =>
    if (frames.filterMap (normalizePixelArray ds)).isEmpty then .error .noUsableFrames
    else .ok (frames.filterMap (normalizePixelArray ds))

/-- How many frames the buffer stores under the classification of
`segmentRaw` (for the rank-4 fallback: the full first-axis count,
of which the code keeps only the first). -/
def frameCount (a : NDArray) : Nat :=
  match a.shape with
  | [_, _] => 1
  | [s0, s1, s2] =>
    if s2 = 3 then 1
    else if s0 < s1 ∧ s0 < s2 then s0
    else if 3 < s2 then s2
    else 1
  | [s0, _, _, _] => s0
  | _ => 0

/-- The i-th frame stored in the buffer under the classification of
`segmentRaw`. -/
def storedFrame (a : NDArray) (i : Nat) : NDArray :=
  match a.shape with
  | [_, _] => a
  | [s0, s1, s2] =>
    if s2 = 3 then a
    else if s0 < s1 ∧ s0 < s2 then sliceFirst a i
    else if 3 < s2 then sliceLast3 a i
    else a
  | [_, _, _, s3] =>
    if s3 = 1 then sliceFirstSqueeze a i
    else sliceFirst a i
  | _ => a

/-- Modelled from the spec (claim C1's formula): the spec's rescale
`clip(round((value - min) / (max - min) * 255), 0, 255)`, with `round`
the usual half-up rounding. The source has no rounding step. -/
def specRescaleRound (mn mx v : Int) : Int :=
  min 255 (max 0 (round (((v : ℚ) - (mn : ℚ)) / ((mx : ℚ) - (mn : ℚ)) * 255)))

/-! ## Helper lemmas -/

lemma floor_clip (x : ℚ) :
    Int.floor (min (255 : ℚ) (max 0 x)) = min 255 (max 0 (Int.floor x)) := by
  have h1 : Int.floor (min (255 : ℚ) (max 0 x))
      = min (Int.floor (255 : ℚ)) (Int.floor (max 0 x)) := Int.floor_mono.map_min
  have h2 : Int.floor (max (0 : ℚ) x) = max (Int.floor (0 : ℚ)) (Int.floor x) :=
    Int.floor_mono.map_max
  rw [h1, h2]
  norm_num

/-- Computes `normVal` as pure integer arithmetic: the floor of the exact rational
rescale is the floor division of integers. -/
lemma normVal_eq_int (mn mx v : Int) (h : mn < mx) :
    normVal mn mx v = min 255 (max 0 (((v - mn) * 255) / (mx - mn))) := by
  have hd : (0 : Int) < mx - mn := by omega
  have h2 : (((mx - mn).toNat : ℕ) : Int) = mx - mn := Int.toNat_of_nonneg (le_of_lt hd)
  have hq : ((v : ℚ) - (mn : ℚ)) / ((mx : ℚ) - (mn : ℚ)) * 255
      = (((v - mn) * 255 : Int) : ℚ) / (((mx - mn).toNat : ℕ) : ℚ) := by
    have h3 : (((mx - mn).toNat : ℕ) : ℚ) = ((mx : ℚ) - (mn : ℚ)) := by
      exact_mod_cast congrArg (Int.cast : Int → ℚ) h2
    rw [h3]
    push_cast
    ring
  have hfl : Int.floor ((((v - mn) * 255 : Int) : ℚ) / (((mx - mn).toNat : ℕ) : ℚ))
      = ((v - mn) * 255) / (mx - mn) := by
    rw [Rat.floor_intCast_div_natCast]
    exact congrArg _ h2
  unfold normVal
  rw [hq, floor_clip, hfl]

lemma normVal_mono {mn mx v w : Int} (h : mn < mx) (hvw : v ≤ w) :
    normVal mn mx v ≤ normVal mn mx w := by
  unfold normVal
  apply Int.floor_le_floor
  apply min_le_min (le_refl _)
  apply max_le_max (le_refl _)
  have hd : (0 : ℚ) < (mx : ℚ) - (mn : ℚ) := by
    have : (0 : Int) < mx - mn := by omega
    exact_mod_cast this
  have hnum : ((v : ℚ) - (mn : ℚ)) ≤ ((w : ℚ) - (mn : ℚ)) := by
    have : (v : ℚ) ≤ (w : ℚ) := by exact_mod_cast hvw
    linarith
  exact mul_le_mul_of_nonneg_right ((div_le_div_iff_of_pos_right hd).mpr hnum) (by norm_num)

/-- The value `normVal` lands in the uint8 range. -/
lemma normVal_range (mn mx v : Int) :
    0 ≤ normVal mn mx v ∧ normVal mn mx v ≤ 255 := by
  unfold normVal
  constructor
  · apply Int.le_floor.mpr
    push_cast
    exact le_min (by norm_num) (le_max_left _ _)
  · apply le_trans (Int.floor_le_floor (min_le_left _ _))
    norm_num

lemma le_foldl_max (l : List Int) (a : Int) :
    a ≤ l.foldl max a ∧ ∀ v ∈ l, v ≤ l.foldl max a := by
  induction l generalizing a with
  | nil => exact ⟨le_refl _, by simp⟩
  | cons b t ih =>
    simp only [List.foldl_cons]
    obtain ⟨h1, h2⟩ := ih (max a b)
    refine ⟨le_trans (le_max_left a b) h1, ?_⟩
    intro v hv
    rcases List.mem_cons.mp hv with hv | hv
    · subst hv
      exact le_trans (le_max_right _ _) h1
    · exact h2 v hv

lemma foldl_max_mem (l : List Int) (a : Int) : l.foldl max a ∈ a :: l := by
  induction l generalizing a with
  | nil => simp
  | cons b t ih =>
    simp only [List.foldl_cons]
    rcases List.mem_cons.mp (ih (max a b)) with h1 | h1
    · rw [h1]
      rcases max_choice a b with hc | hc <;> rw [hc]
      · exact List.mem_cons_self _ _
      · exact List.mem_cons_of_mem _ (List.mem_cons_self _ _)
    · exact List.mem_cons_of_mem _ (List.mem_cons_of_mem _ h1)

lemma max?_spec {l : List Int} {M : Int} (h : l.max? = some M) :
    M ∈ l ∧ ∀ v ∈ l, v ≤ M := by
  cases l with
  | nil => simp [List.max?] at h
  | cons a t =>
    simp only [List.max?] at h
    obtain hM := Option.some.inj h
    subst hM
    obtain ⟨h1, h2⟩ := le_foldl_max t a
    refine ⟨foldl_max_mem t a, ?_⟩
    intro v hv
    rcases List.mem_cons.mp hv with hv | hv
    · subst hv
      exact h1
    · exact h2 v hv

lemma foldl_min_le (l : List Int) (a : Int) :
    l.foldl min a ≤ a ∧ ∀ v ∈ l, l.foldl min a ≤ v := by
  induction l generalizing a with
  | nil => exact ⟨le_refl _, by simp⟩
  | cons b t ih =>
    simp only [List.foldl_cons]
    obtain ⟨h1, h2⟩ := ih (min a b)
    refine ⟨le_trans h1 (min_le_left a b), ?_⟩
    intro v hv
    rcases List.mem_cons.mp hv with hv | hv
    · subst hv
      exact le_trans h1 (min_le_right _ _)
    · exact h2 v hv

lemma foldl_min_mem (l : List Int) (a : Int) : l.foldl min a ∈ a :: l := by
  induction l generalizing a with
  | nil => simp
  | cons b t ih =>
    simp only [List.foldl_cons]
    rcases List.mem_cons.mp (ih (min a b)) with h1 | h1
    · rw [h1]
      rcases min_choice a b with hc | hc <;> rw [hc]
      · exact List.mem_cons_self _ _
      · exact List.mem_cons_of_mem _ (List.mem_cons_self _ _)
    · exact List.mem_cons_of_mem _ (List.mem_cons_of_mem _ h1)

lemma min?_spec {l : List Int} {m : Int} (h : l.min? = some m) :
    m ∈ l ∧ ∀ v ∈ l, m ≤ v := by
  cases l with
  | nil => simp [List.min?] at h
  | cons a t =>
    simp only [List.min?] at h
    obtain hm := Option.some.inj h
    subst hm
    obtain ⟨h1, h2⟩ := foldl_min_le t a
    refine ⟨foldl_min_mem t a, ?_⟩
    intro v hv
    rcases List.mem_cons.mp hv with hv | hv
    · subst hv
      exact h1
    · exact h2 v hv

lemma getD_map_lt (f : Int → Int) (l : List Int) (i : Nat) (h : i < l.length) :
    (l.map f).getD i 0 = f (l.getD i 0) := by
  rw [List.getD_eq_getElem _ _ (by simpa using h), List.getD_eq_getElem _ _ h,
    List.getElem_map]

lemma range_one_eq : List.range 1 = [0] := rfl

lemma getD_mem {l : List Int} {i : Nat} (h : i < l.length) : l.getD i 0 ∈ l := by
  rw [List.getD_eq_getElem _ _ h]
  exact List.getElem_mem h

lemma min?_all_eq {l : List Int} {c : Int} (hne : l ≠ []) (hall : ∀ v ∈ l, v = c) :
    l.min? = some c := by
  cases l with
  | nil => exact absurd rfl hne
  | cons a t =>
    simp only [List.min?]
    exact congrArg some (hall _ (foldl_min_mem t a))

lemma max?_all_eq {l : List Int} {c : Int} (hne : l ≠ []) (hall : ∀ v ∈ l, v = c) :
    l.max? = some c := by
  cases l with
  | nil => exact absurd rfl hne
  | cons a t =>
    simp only [List.max?]
    exact congrArg some (hall _ (foldl_max_mem t a))

/-- On a nonempty frame the Intensity Normalizer never raises: every branch
of lines 105-121 produces an array. -/
lemma rescaleToUint8_total {a : NDArray} (hne : a.data ≠ []) :
    ∃ b, rescaleToUint8 a = some b := by
  unfold rescaleToUint8
  by_cases hdt : a.dtype = DType.uint8
  · rw [if_pos hdt]
    exact ⟨a, rfl⟩
  · rw [if_neg hdt]
    cases hd : a.data with
    | nil => exact absurd hd hne
    | cons x t =>
      simp only [hd, List.min?, List.max?]
      split
      · exact ⟨_, rfl⟩
      · exact ⟨_, rfl⟩

/-- The Intensity Normalizer preserves shape and element count and is
pointwise monotone: positions holding larger source values receive
output values at least as large. -/
lemma rescaleToUint8_pointwise {a b : NDArray} (hab : rescaleToUint8 a = some b) :
    b.shape = a.shape ∧ b.data.length = a.data.length ∧
      ∀ i j : Nat, i < a.data.length → j < a.data.length →
        a.data.getD i 0 ≤ a.data.getD j 0 → b.data.getD i 0 ≤ b.data.getD j 0 := by
  unfold rescaleToUint8 at hab
  split at hab
  · obtain rfl := Option.some.inj hab
    exact ⟨rfl, rfl, fun i j _ _ h => h⟩
  · split at hab
    · rename_i mn mx hminmax
      split at hab
      · rename_i hlt
        obtain rfl := (Option.some.inj hab).symm
        refine ⟨rfl, by simp, ?_⟩
        intro i j hi hj hle
        simp only
        rw [getD_map_lt _ _ _ hi, getD_map_lt _ _ _ hj]
        exact normVal_mono hlt hle
      · obtain rfl := (Option.some.inj hab).symm
        refine ⟨rfl, by simp, ?_⟩
        intro i j hi hj _
        simp only
        rw [getD_map_lt _ _ _ hi, getD_map_lt _ _ _ hj]
    · exact absurd hab (by simp)

/-! ## Concrete example data used by witnesses -/

/-- A dataset carrying the spec's manual windowing example: center 100,
width 50, with the VOI LUT delegate raising. -/
def dsWindowExample : Dataset :=
  ⟨Photometric.other, some (WinVal.scalar 100), some (WinVal.scalar 50), fun _ => none⟩

/-- The spec's manual windowing example frame holding values 50, 100, 150. -/
def frameWindowExample : NDArray := ⟨DType.int16, [3], [50, 100, 150]⟩

/-- A dataset with an empty list-valued WindowCenter: present, but taking
its first element raises, so manual windowing fails. -/
def dsEmptyWin : Dataset :=
  ⟨Photometric.other, some (WinVal.vals []), some (WinVal.scalar 50), fun _ => none⟩

/-- A MONOCHROME1 dataset with no windowing information and a raising VOI
LUT delegate. -/
def dsMono1 : Dataset := ⟨Photometric.MONOCHROME1, none, none, fun _ => none⟩

/-- The spec's MONOCHROME1 example frame [[0, 10], [20, 30]]. -/
def frameMono1 : NDArray := ⟨DType.int16, [2, 2], [0, 10, 20, 30]⟩

/-- A rank-3 multi-frame buffer of shape (2, 4, 4): the first stored frame
is all zeros, the second all 99s. -/
def bufferMixed : NDArray :=
  ⟨DType.int16, [2, 4, 4], List.replicate 16 0 ++ List.replicate 16 99⟩

/-- The first stored frame of `bufferMixed`. -/
def frameZeros : NDArray := ⟨DType.int16, [4, 4], List.replicate 16 0⟩

/-- The second stored frame of `bufferMixed`. -/
def frameNines : NDArray := ⟨DType.int16, [4, 4], List.replicate 16 99⟩

/-- A dataset whose VOI LUT delegate succeeds on the all-99 frame but
returns an empty array for it (so its later rescale raises on np.min),
and raises on every other frame. -/
def dsMixed : Dataset :=
  ⟨Photometric.other, none, none,
    fun f => if f.data.getD 0 0 = 99 then some ⟨DType.float64, [0], []⟩ else none⟩

/-! ## Claims -/

/-- Claim C1, amended: for every frame whose element type is not uint8 and
whose maximum element exceeds its minimum, the Intensity Normalizer
produces out = clip(trunc((value - min) / (max - min) * 255), 0, 255)
element-wise, cast to uint8, where trunc is truncation toward zero (the
uint8 cast; on the nonnegative scaled value this is the floor, realized
below as integer floor division) — not rounding — with the intermediate
arithmetic carried out in a wide floating type, modelled exactly over ℚ. -/
theorem C1_rescale_formula (a : NDArray) (mn mx : Int)
    (hdt : a.dtype ≠ DType.uint8)
    (hmn : a.data.min? = some mn) (hmx : a.data.max? = some mx) (hlt : mn < mx) :
    rescaleToUint8 a =
      some ⟨DType.uint8, a.shape,
        a.data.map (fun v => min 255 (max 0 ((v - mn) * 255 / (mx - mn))))⟩ := by
  unfold rescaleToUint8
  rw [if_neg hdt]
  simp only [hmn, hmx]
  rw [if_pos hlt]
  refine congrArg some (congrArg (NDArray.mk DType.uint8 a.shape) ?_)
  exact List.map_congr_left (fun v _ => normVal_eq_int mn mx v hlt)

theorem C1_rescale_formula_witness :
    (NDArray.mk DType.int16 [3] [0, 1, 2]).dtype ≠ DType.uint8
    ∧ (NDArray.mk DType.int16 [3] [0, 1, 2]).data.min? = some 0
    ∧ (NDArray.mk DType.int16 [3] [0, 1, 2]).data.max? = some 2
    ∧ (0 : Int) < 2
    ∧ rescaleToUint8 ⟨DType.int16, [3], [0, 1, 2]⟩ =
        some ⟨DType.uint8, [3],
          List.map (fun v => min 255 (max 0 ((v - 0) * 255 / (2 - 0)))) [0, 1, 2]⟩ :=
  ⟨by decide, by decide, by decide, by decide,
    C1_rescale_formula ⟨DType.int16, [3], [0, 1, 2]⟩ 0 2
      (by decide) (by decide) (by decide) (by decide)⟩

/-- Claim C1 as frozen is false on the code: for the int16 frame
[0, 1, 2] (min 0, max 2) the middle element scales to 127.5, which the
code truncates to 127 while the spec's clip-round formula yields 128. -/
theorem C1_counterexample :
    rescaleToUint8 ⟨DType.int16, [3], [0, 1, 2]⟩
        = some ⟨DType.uint8, [3], [0, 127, 255]⟩
    ∧ List.map (specRescaleRound 0 2) [0, 1, 2] = [0, 128, 255]
    ∧ ([0, 127, 255] : List Int) ≠ [0, 128, 255] := by
  refine ⟨?_, ?_, by decide⟩
  · have h0 : normVal 0 2 0 = 0 := by
      rw [normVal_eq_int 0 2 0 (by decide)]
      decide
    have h1 : normVal 0 2 1 = 127 := by
      rw [normVal_eq_int 0 2 1 (by decide)]
      decide
    have h2 : normVal 0 2 2 = 255 := by
      rw [normVal_eq_int 0 2 2 (by decide)]
      decide
    unfold rescaleToUint8
    rw [if_neg (by decide)]
    have hmn : (NDArray.mk DType.int16 [3] [0, 1, 2]).data.min? = some 0 := by decide
    have hmx : (NDArray.mk DType.int16 [3] [0, 1, 2]).data.max? = some 2 := by decide
    simp only [hmn, hmx]
    rw [if_pos (by decide : (0 : Int) < 2)]
    simp [h0, h1, h2]
  · have r0 : specRescaleRound 0 2 0 = 0 := by
      unfold specRescaleRound
      norm_num [round_eq, Int.floor_eq_iff]
    have r1 : specRescaleRound 0 2 1 = 128 := by
      unfold specRescaleRound
      norm_num [round_eq, Int.floor_eq_iff]
    have r2 : specRescaleRound 0 2 2 = 255 := by
      unfold specRescaleRound
      norm_num [round_eq, Int.floor_eq_iff]
    simp [r0, r1, r2]

/-- Claim C2, amended: for every nonempty frame whose element type is not
uint8 in which every element equals 7, the Intensity Normalizer outputs a
uniform frame in which every element equals 128, not the original
constant. (A uint8 all-7 frame passes through unchanged.) -/
theorem C2_constant_frame (a : NDArray) (hdt : a.dtype ≠ DType.uint8)
    (hne : a.data ≠ []) (hall : ∀ v ∈ a.data, v = 7) :
    rescaleToUint8 a = some ⟨DType.uint8, a.shape, List.replicate a.data.length 128⟩ := by
  unfold rescaleToUint8
  rw [if_neg hdt]
  simp only [min?_all_eq hne hall, max?_all_eq hne hall]
  rw [if_neg (lt_irrefl 7)]
  refine congrArg some (congrArg (NDArray.mk DType.uint8 a.shape) ?_)
  exact List.map_const' a.data 128

theorem C2_constant_frame_witness :
    (NDArray.mk DType.int16 [2, 2] [7, 7, 7, 7]).dtype ≠ DType.uint8
    ∧ (NDArray.mk DType.int16 [2, 2] [7, 7, 7, 7]).data ≠ []
    ∧ (∀ v ∈ (NDArray.mk DType.int16 [2, 2] [7, 7, 7, 7]).data, v = 7)
    ∧ rescaleToUint8 ⟨DType.int16, [2, 2], [7, 7, 7, 7]⟩
        = some ⟨DType.uint8, [2, 2], List.replicate 4 128⟩ :=
  ⟨by decide, by decide, by decide,
    C2_constant_frame ⟨DType.int16, [2, 2], [7, 7, 7, 7]⟩ (by decide) (by decide) (by decide)⟩

/-- Claim C2 as frozen is false on the code: a uint8 frame in which every
element equals 7 passes through the Intensity Normalizer unchanged (the
uint8 early exit of line 106), so its elements stay 7, not 128. -/
theorem C2_counterexample :
    rescaleToUint8 ⟨DType.uint8, [2, 2], [7, 7, 7, 7]⟩
        = some ⟨DType.uint8, [2, 2], [7, 7, 7, 7]⟩
    ∧ (7 : Int) ≠ 128 :=
  ⟨rfl, by decide⟩

/-- Claim C5, confirmed: when the VOI LUT transform fails and both
WindowCenter and WindowWidth deliver a value, the windowing engine clips
every frame value to [center - width // 2, center + width // 2] with
floor division on the half-width. -/
theorem C5_manual_windowing (ds : Dataset) (a : NDArray) (c w : Int)
    (hvoi : ds.voiLut a = none) (hmw : manualWindow ds = some (c, w)) :
    applyWindowing ds a
        = ⟨a.dtype, a.shape, a.data.map (clipVal (c - Int.fdiv w 2) (c + Int.fdiv w 2))⟩
    ∧ (0 ≤ w → ∀ v ∈ (applyWindowing ds a).data,
        c - Int.fdiv w 2 ≤ v ∧ v ≤ c + Int.fdiv w 2) := by
  have h1 : applyWindowing ds a
      = ⟨a.dtype, a.shape, a.data.map (clipVal (c - Int.fdiv w 2) (c + Int.fdiv w 2))⟩ := by
    unfold applyWindowing
    simp only [hvoi, hmw]
  refine ⟨h1, ?_⟩
  intro hw v hv
  rw [h1] at hv
  simp only [List.mem_map] at hv
  obtain ⟨u, _, rfl⟩ := hv
  have hfd : 0 ≤ Int.fdiv w 2 := Int.fdiv_nonneg hw (by norm_num)
  have hlohi : c - Int.fdiv w 2 ≤ c + Int.fdiv w 2 := by omega
  unfold clipVal
  exact ⟨le_min hlohi (le_max_left _ _), min_le_left _ _⟩

/-- The spec's example: center 100 and width 50 applied to [50, 100, 150]
clip to [75, 100, 125] (half-width 50 // 2 = 25). -/
theorem C5_manual_windowing_witness :
    dsWindowExample.voiLut frameWindowExample = none
    ∧ manualWindow dsWindowExample = some (100, 50)
    ∧ applyWindowing dsWindowExample frameWindowExample
        = ⟨DType.int16, [3], [75, 100, 125]⟩ := by
  refine ⟨rfl, rfl, ?_⟩
  rw [(C5_manual_windowing dsWindowExample frameWindowExample 100 50 rfl rfl).1]
  decide

/-- Claim C10, confirmed: when the VOI LUT application raises and manual
windowing also raises or is absent, the windowing phase propagates no
error: the frame continues unwindowed, with its original values, into the
photometric-inversion and intensity-normalization steps. -/
theorem C10_windowing_total (ds : Dataset) (a : NDArray)
    (hvoi : ds.voiLut a = none) (hmw : manualWindow ds = none) :
    applyWindowing ds a = a
    ∧ normalizePixelArray ds a = (applyPhotometric ds a).bind rescaleToUint8 := by
  have h : applyWindowing ds a = a := by
    unfold applyWindowing
    simp only [hvoi, hmw]
  refine ⟨h, ?_⟩
  unfold normalizePixelArray
  rw [h]

/-- The raising manual path concretely: WindowCenter present but an empty
list, so both the VOI LUT and the manual computation fail. -/
theorem C10_windowing_total_witness :
    dsEmptyWin.voiLut frameWindowExample = none
    ∧ manualWindow dsEmptyWin = none
    ∧ applyWindowing dsEmptyWin frameWindowExample = frameWindowExample
    ∧ normalizePixelArray dsEmptyWin frameWindowExample
        = (applyPhotometric dsEmptyWin frameWindowExample).bind rescaleToUint8 := by
  obtain ⟨h1, h2⟩ := C10_windowing_total dsEmptyWin frameWindowExample rfl rfl
  exact ⟨rfl, rfl, h1, h2⟩


/-- Claim C6, amended: for a MONOCHROME1 frame with no windowing applied,
in which every inverted value max(frame) - v is representable in the
frame's element type (the dtype subtraction does not wrap), normalization
first replaces each value v by max(frame) - v and then rescales, so the
position of the original maximum receives the smallest output value and
the position of the original minimum receives the largest. -/
theorem C6_mono1_inversion (ds : Dataset) (a : NDArray) (M m : Int)
    (hph : ds.photometric = Photometric.MONOCHROME1)
    (hvoi : ds.voiLut a = none) (hwc : ds.windowCenter = none)
    (hmx : a.data.max? = some M) (hmn : a.data.min? = some m)
    (hnw : ∀ v ∈ a.data, wrapDType a.dtype (M - v) = M - v)
    (i j : Nat) (hi : i < a.data.length) (hj : j < a.data.length) :
    applyPhotometric ds a = some ⟨a.dtype, a.shape, a.data.map (fun v => M - v)⟩
    ∧ ∃ out, normalizePixelArray ds a = some out
        ∧ (a.data.getD i 0 = M → out.data.getD i 0 ≤ out.data.getD j 0)
        ∧ (a.data.getD i 0 = m → out.data.getD j 0 ≤ out.data.getD i 0) := by
  have hw : applyWindowing ds a = a := by
    unfold applyWindowing manualWindow
    simp only [hvoi, hwc]
  have hph2 : applyPhotometric ds a
      = some ⟨a.dtype, a.shape, a.data.map (fun v => M - v)⟩ := by
    unfold applyPhotometric
    rw [if_pos hph]
    simp only [hmx]
    refine congrArg some (congrArg (NDArray.mk a.dtype a.shape) ?_)
    exact List.map_congr_left (fun v hv => hnw v hv)
  refine ⟨hph2, ?_⟩
  have hnorm : normalizePixelArray ds a
      = rescaleToUint8 ⟨a.dtype, a.shape, a.data.map (fun v => M - v)⟩ := by
    unfold normalizePixelArray
    rw [hw, hph2]
    rfl
  have hne : a.data ≠ [] := by
    intro h
    rw [h] at hmx
    simp [List.max?] at hmx
  have hinvne : (NDArray.mk a.dtype a.shape (a.data.map (fun v => M - v))).data ≠ [] := by
    simpa using hne
  obtain ⟨out, hout⟩ := rescaleToUint8_total hinvne
  obtain ⟨_, hlen, hmono⟩ := rescaleToUint8_pointwise hout
  have hleninv : (NDArray.mk a.dtype a.shape (a.data.map (fun v => M - v))).data.length
      = a.data.length := by simp
  obtain ⟨_, hMle⟩ := max?_spec hmx
  obtain ⟨_, hmle⟩ := min?_spec hmn
  have hgi : (a.data.map (fun v => M - v)).getD i 0 = M - a.data.getD i 0 :=
    getD_map_lt _ _ _ hi
  have hgj : (a.data.map (fun v => M - v)).getD j 0 = M - a.data.getD j 0 :=
    getD_map_lt _ _ _ hj
  refine ⟨out, by rw [hnorm]; exact hout, ?_, ?_⟩
  · intro hiM
    apply hmono i j (by simpa [hleninv] using hi) (by simpa [hleninv] using hj)
    simp only [hgi, hgj, hiM]
    have := hMle _ (getD_mem hj)
    omega
  · intro him
    apply hmono j i (by simpa [hleninv] using hj) (by simpa [hleninv] using hi)
    simp only [hgi, hgj, him]
    have := hmle _ (getD_mem hj)
    omega

/-- The spec's example: [[0, 10], [20, 30]] under MONOCHROME1 — the
position of 30 receives the smallest output and the position of 0 the
largest. -/
theorem C6_mono1_inversion_witness :
    dsMono1.photometric = Photometric.MONOCHROME1
    ∧ frameMono1.data.max? = some 30
    ∧ frameMono1.data.min? = some 0
    ∧ applyPhotometric dsMono1 frameMono1
        = some ⟨frameMono1.dtype, frameMono1.shape, frameMono1.data.map (fun v => 30 - v)⟩
    ∧ (∃ out, normalizePixelArray dsMono1 frameMono1 = some out
        ∧ out.data.getD 3 0 ≤ out.data.getD 0 0)
    ∧ (∃ out, normalizePixelArray dsMono1 frameMono1 = some out
        ∧ out.data.getD 1 0 ≤ out.data.getD 0 0) := by
  obtain ⟨hinv, out, hnorm, hmax, -⟩ :=
    C6_mono1_inversion dsMono1 frameMono1 30 0 rfl rfl rfl (by decide) (by decide)
      (by decide) 3 0 (by decide) (by decide)
  obtain ⟨-, out2, hnorm2, -, hmin2⟩ :=
    C6_mono1_inversion dsMono1 frameMono1 30 0 rfl rfl rfl (by decide) (by decide)
      (by decide) 0 1 (by decide) (by decide)
  exact ⟨rfl, by decide, by decide, hinv,
    ⟨out, hnorm, hmax (by decide)⟩, ⟨out2, hnorm2, hmin2 (by decide)⟩⟩

/-- Claim C6 as frozen is false on the code: the MONOCHROME1 inversion
np.max(frame) - frame is computed in the frame's own integer dtype and
wraps. For the int16 frame [-32768, 32767] the inversion gives
32767 - (-32768) = -1 (wrapped) at the position of the minimum and 0 at
the position of the maximum, so after the rescale the position of the
original maximum (32767, index 1) receives 255 — the largest output, not
the minimum output value. -/
theorem C6_counterexample :
    (NDArray.mk DType.int16 [2] [-32768, 32767]).data.max? = some 32767
    ∧ applyPhotometric dsMono1 ⟨DType.int16, [2], [-32768, 32767]⟩
        = some ⟨DType.int16, [2], [-1, 0]⟩
    ∧ normalizePixelArray dsMono1 ⟨DType.int16, [2], [-32768, 32767]⟩
        = some ⟨DType.uint8, [2], [0, 255]⟩
    ∧ ¬((255 : Int) ≤ 0) := by
  have hinv : applyPhotometric dsMono1 ⟨DType.int16, [2], [-32768, 32767]⟩
      = some ⟨DType.int16, [2], [-1, 0]⟩ := by decide
  refine ⟨by decide, hinv, ?_, by decide⟩
  have hw : applyWindowing dsMono1 ⟨DType.int16, [2], [-32768, 32767]⟩
      = ⟨DType.int16, [2], [-32768, 32767]⟩ := rfl
  have hn0 : normVal (-1) 0 (-1) = 0 := by
    rw [normVal_eq_int (-1) 0 (-1) (by decide)]
    decide
  have hn1 : normVal (-1) 0 0 = 255 := by
    rw [normVal_eq_int (-1) 0 0 (by decide)]
    decide
  unfold normalizePixelArray
  rw [hw, hinv]
  show rescaleToUint8 _ = _
  unfold rescaleToUint8
  rw [if_neg (by decide)]
  have hmn : (NDArray.mk DType.int16 [2] [-1, 0]).data.min? = some (-1) := by decide
  have hmx : (NDArray.mk DType.int16 [2] [-1, 0]).data.max? = some 0 := by decide
  simp only [hmn, hmx]
  rw [if_pos (by decide : (-1 : Int) < 0)]
  simp [hn0, hn1]

/-- Claim C7, confirmed: for every non-degenerate frame (max > min) the
Intensity Normalizer is monotone: if the source value at position i is
less than the source value at position j, the output at i is at most the
output at j. -/
theorem C7_rescale_monotone (a : NDArray) (mn mx : Int)
    (hmn : a.data.min? = some mn) (hmx : a.data.max? = some mx) (hlt : mn < mx)
    (i j : Nat) (hi : i < a.data.length) (hj : j < a.data.length)
    (hij : a.data.getD i 0 < a.data.getD j 0) :
    ∃ out, rescaleToUint8 a = some out ∧ out.data.getD i 0 ≤ out.data.getD j 0 := by
  have hne : a.data ≠ [] := by
    intro h
    rw [h] at hmn
    simp [List.min?] at hmn
  obtain ⟨out, hout⟩ := rescaleToUint8_total hne
  obtain ⟨_, _, hmono⟩ := rescaleToUint8_pointwise hout
  exact ⟨out, hout, hmono i j hi hj (le_of_lt hij)⟩

theorem C7_rescale_monotone_witness :
    (NDArray.mk DType.int16 [2, 2] [5, 1, 9, 3]).data.min? = some 1
    ∧ (NDArray.mk DType.int16 [2, 2] [5, 1, 9, 3]).data.max? = some 9
    ∧ (1 : Int) < 9
    ∧ (NDArray.mk DType.int16 [2, 2] [5, 1, 9, 3]).data.getD 1 0
        < (NDArray.mk DType.int16 [2, 2] [5, 1, 9, 3]).data.getD 2 0
    ∧ ∃ out, rescaleToUint8 ⟨DType.int16, [2, 2], [5, 1, 9, 3]⟩ = some out
        ∧ out.data.getD 1 0 ≤ out.data.getD 2 0 :=
  ⟨by decide, by decide, by decide, by decide,
    C7_rescale_monotone ⟨DType.int16, [2, 2], [5, 1, 9, 3]⟩ 1 9
      (by decide) (by decide) (by decide) 1 2 (by decide) (by decide) (by decide)⟩

/-- Claim C8, confirmed: a rank-3 buffer of shape (3, 512, 512) segments
into exactly 3 frames of shape (512, 512), while a rank-3 buffer of shape
(512, 512, 3) segments into exactly one RGB frame with no splitting: the
last-dimension-equals-3 rule takes precedence. -/
theorem C8_shape_classification (dt : DType) (d1 d2 : List Int)
    (h1 : d1.length = 3 * 512 * 512) (h2 : d2.length = 512 * 512 * 3) :
    (∃ l, segmentRaw ⟨dt, [3, 512, 512], d1⟩ = .ok l
        ∧ l.length = 3 ∧ ∀ f ∈ l, f.shape = [512, 512])
    ∧ segmentRaw ⟨dt, [512, 512, 3], d2⟩ = .ok [⟨dt, [512, 512, 3], d2⟩] := by
  constructor
  · refine ⟨(List.range 3).map (sliceFirst ⟨dt, [3, 512, 512], d1⟩), rfl, by simp, ?_⟩
    intro f hf
    simp only [List.mem_map] at hf
    obtain ⟨i, _, rfl⟩ := hf
    rfl
  · rfl

theorem C8_shape_classification_witness :
    (List.replicate (3 * 512 * 512) (0 : Int)).length = 3 * 512 * 512
    ∧ (List.replicate (512 * 512 * 3) (0 : Int)).length = 512 * 512 * 3
    ∧ (∃ l, segmentRaw ⟨DType.uint8, [3, 512, 512], List.replicate (3 * 512 * 512) 0⟩ = .ok l
        ∧ l.length = 3 ∧ ∀ f ∈ l, f.shape = [512, 512])
    ∧ segmentRaw ⟨DType.uint8, [512, 512, 3], List.replicate (512 * 512 * 3) 0⟩
        = .ok [⟨DType.uint8, [512, 512, 3], List.replicate (512 * 512 * 3) 0⟩] := by
  obtain ⟨ha, hb⟩ := C8_shape_classification DType.uint8
    (List.replicate (3 * 512 * 512) 0) (List.replicate (512 * 512 * 3) 0)
    (List.length_replicate _ _) (List.length_replicate _ _)
  exact ⟨List.length_replicate _ _, List.length_replicate _ _, ha, hb⟩

/-- Claim C4, amended: the Frame Segmenter's shape classification fails
with ShapeError exactly when the buffer rank is outside {2, 3, 4}; a zero
dimension is not rejected (it is not checked at all) — for every buffer
of accepted rank with all dimensions nonzero the classification returns
at least one frame. -/
theorem C4_rank_gate (a : NDArray) :
    (segmentRaw a = .error ConvError.shapeError
        ↔ ¬(a.shape.length = 2 ∨ a.shape.length = 3 ∨ a.shape.length = 4))
    ∧ ((a.shape.length = 2 ∨ a.shape.length = 3 ∨ a.shape.length = 4) →
        (∀ d ∈ a.shape, d ≠ 0) → ∃ l, segmentRaw a = .ok l ∧ 1 ≤ l.length) := by
  obtain ⟨dt, shape, data⟩ := a
  rcases shape with _ | ⟨s0, _ | ⟨s1, _ | ⟨s2, _ | ⟨s3, _ | ⟨s4, rest⟩⟩⟩⟩⟩
  · exact ⟨by simp [segmentRaw], fun h => absurd h (by simp)⟩
  · exact ⟨by simp [segmentRaw], fun h => absurd h (by simp)⟩
  · refine ⟨by simp [segmentRaw], fun _ _ => ⟨_, rfl, by simp⟩⟩
  · by_cases h3 : s2 = 3
    · refine ⟨?_, fun _ _ => ⟨[⟨dt, [s0, s1, s2], data⟩], ?_, by simp⟩⟩
      · simp [segmentRaw, h3]
      · simp [segmentRaw, h3]
    · by_cases hm : s0 < s1 ∧ s0 < s2
      · refine ⟨?_, fun _ hd =>
          ⟨(List.range s0).map (sliceFirst ⟨dt, [s0, s1, s2], data⟩), ?_, ?_⟩⟩
        · simp [segmentRaw, h3, hm]
        · simp only [segmentRaw]
          rw [if_neg h3, if_pos hm]
        · have hs0 : s0 ≠ 0 := hd s0 (by simp)
          simp only [List.length_map, List.length_range]
          omega
      · by_cases hl : 3 < s2
        · refine ⟨?_, fun _ _ =>
            ⟨(List.range s2).map (sliceLast3 ⟨dt, [s0, s1, s2], data⟩), ?_, ?_⟩⟩
          · simp [segmentRaw, h3, hm, hl]
          · simp only [segmentRaw]
            rw [if_neg h3, if_neg hm, if_pos hl]
          · simp only [List.length_map, List.length_range]
            omega
        · refine ⟨?_, fun _ _ => ⟨[⟨dt, [s0, s1, s2], data⟩], ?_, by simp⟩⟩
          · simp [segmentRaw, h3, hm, hl]
          · simp only [segmentRaw]
            rw [if_neg h3, if_neg hm, if_neg hl]
  · by_cases h1 : s3 = 1
    · refine ⟨?_, fun _ hd =>
        ⟨(List.range s0).map (sliceFirstSqueeze ⟨dt, [s0, s1, s2, s3], data⟩), ?_, ?_⟩⟩
      · simp [segmentRaw, h1]
      · simp only [segmentRaw]
        rw [if_pos h1]
      · have hs0 : s0 ≠ 0 := hd s0 (by simp)
        simp only [List.length_map, List.length_range]
        omega
    · by_cases h3 : s3 = 3
      · refine ⟨?_, fun _ hd =>
          ⟨(List.range s0).map (sliceFirst ⟨dt, [s0, s1, s2, s3], data⟩), ?_, ?_⟩⟩
        · simp [segmentRaw, h1, h3]
        · simp only [segmentRaw]
          rw [if_neg h1, if_pos h3]
        · have hs0 : s0 ≠ 0 := hd s0 (by simp)
          simp only [List.length_map, List.length_range]
          omega
      · refine ⟨?_, fun _ _ => ⟨[sliceFirst ⟨dt, [s0, s1, s2, s3], data⟩ 0], ?_, by simp⟩⟩
        · simp [segmentRaw, h1, h3]
        · simp only [segmentRaw]
          rw [if_neg h1, if_neg h3]
  · exact ⟨by simp [segmentRaw], fun h => absurd h (by simp)⟩

theorem C4_rank_gate_witness :
    ((NDArray.mk DType.int16 [2, 4, 4] (List.replicate 16 0 ++ List.replicate 16 99)).shape.length = 2
      ∨ (NDArray.mk DType.int16 [2, 4, 4] (List.replicate 16 0 ++ List.replicate 16 99)).shape.length = 3
      ∨ (NDArray.mk DType.int16 [2, 4, 4] (List.replicate 16 0 ++ List.replicate 16 99)).shape.length = 4)
    ∧ (∀ d ∈ (NDArray.mk DType.int16 [2, 4, 4] (List.replicate 16 0 ++ List.replicate 16 99)).shape, d ≠ 0)
    ∧ ∃ l, segmentRaw ⟨DType.int16, [2, 4, 4], List.replicate 16 0 ++ List.replicate 16 99⟩ = .ok l
        ∧ 1 ≤ l.length :=
  ⟨by decide, by decide,
    (C4_rank_gate ⟨DType.int16, [2, 4, 4], List.replicate 16 0 ++ List.replicate 16 99⟩).2
      (by decide) (by decide)⟩

/-- Claim C4 as frozen is false on the code: a rank-2 buffer with a zero
dimension (shape (0, 3)) is not rejected with ShapeError — the shape
classification returns it as a single (empty) frame. -/
theorem C4_counterexample :
    (0 ∈ (NDArray.mk DType.uint8 [0, 3] []).shape)
    ∧ segmentRaw ⟨DType.uint8, [0, 3], []⟩ = .ok [⟨DType.uint8, [0, 3], []⟩]
    ∧ (Except.ok [(⟨DType.uint8, [0, 3], []⟩ : NDArray)]
        ≠ (Except.error ConvError.shapeError : Except ConvError (List NDArray))) := by
  refine ⟨by decide, rfl, ?_⟩
  intro h
  exact Except.noConfusion h


/-- Claim C3, amended: for every accepted buffer outside the rank-4 lossy
fallback (rank 4 with last dimension neither 1 nor 3, where only the
first frame is kept and the rest discarded), segmentation yields exactly
the frames stored in the buffer, in their storage order: no frame is
dropped and none reordered. -/
theorem C3_segmentation_order (a : NDArray) (l : List NDArray)
    (hok : segmentRaw a = .ok l)
    (hfb : ∀ s0 s1 s2 s3, a.shape = [s0, s1, s2, s3] → s3 = 1 ∨ s3 = 3) :
    l = (List.range (frameCount a)).map (storedFrame a) := by
  obtain ⟨dt, shape, data⟩ := a
  rcases shape with _ | ⟨s0, _ | ⟨s1, _ | ⟨s2, _ | ⟨s3, _ | ⟨s4, rest⟩⟩⟩⟩⟩
  · simp [segmentRaw] at hok
  · simp [segmentRaw] at hok
  · simp only [segmentRaw, Except.ok.injEq] at hok
    subst hok
    simp [frameCount, storedFrame, range_one_eq]
  · by_cases h3 : s2 = 3
    · simp only [segmentRaw] at hok
      rw [if_pos h3] at hok
      simp only [Except.ok.injEq] at hok
      subst hok
      simp [frameCount, storedFrame, h3, range_one_eq]
    · by_cases hm : s0 < s1 ∧ s0 < s2
      · simp only [segmentRaw] at hok
        rw [if_neg h3, if_pos hm] at hok
        simp only [Except.ok.injEq] at hok
        subst hok
        simp [frameCount, storedFrame, h3, hm]
      · by_cases hl : 3 < s2
        · simp only [segmentRaw] at hok
          rw [if_neg h3, if_neg hm, if_pos hl] at hok
          simp only [Except.ok.injEq] at hok
          subst hok
          simp [frameCount, storedFrame, h3, hm, hl]
        · simp only [segmentRaw] at hok
          rw [if_neg h3, if_neg hm, if_neg hl] at hok
          simp only [Except.ok.injEq] at hok
          subst hok
          simp [frameCount, storedFrame, h3, hm, hl, range_one_eq]
  · rcases hfb s0 s1 s2 s3 rfl with h1 | h3
    · simp only [segmentRaw] at hok
      rw [if_pos h1] at hok
      simp only [Except.ok.injEq] at hok
      subst hok
      simp [frameCount, storedFrame, h1]
    · have h1 : ¬s3 = 1 := by omega
      simp only [segmentRaw] at hok
      rw [if_neg h1, if_pos h3] at hok
      simp only [Except.ok.injEq] at hok
      subst hok
      simp [frameCount, storedFrame, h1, h3]
  · simp [segmentRaw] at hok

theorem C3_segmentation_order_witness :
    segmentRaw bufferMixed = .ok [frameZeros, frameNines]
    ∧ (∀ s0 s1 s2 s3, bufferMixed.shape = [s0, s1, s2, s3] → s3 = 1 ∨ s3 = 3)
    ∧ [frameZeros, frameNines]
        = (List.range (frameCount bufferMixed)).map (storedFrame bufferMixed) := by
  refine ⟨rfl, ?_, ?_⟩
  · intro s0 s1 s2 s3 h
    simp [bufferMixed] at h
  · exact C3_segmentation_order bufferMixed [frameZeros, frameNines] rfl
      (by intro s0 s1 s2 s3 h; simp [bufferMixed] at h)

/-- Claim C3 as frozen is false on the code: the rank-4 fallback (last
dimension neither 1 nor 3) keeps only the first of the stored frames —
for the (2, 1, 1, 2) buffer below the second stored frame [20, 21] is
dropped from the output. -/
theorem C3_counterexample :
    segmentRaw ⟨DType.int16, [2, 1, 1, 2], [10, 11, 20, 21]⟩
        = .ok [⟨DType.int16, [1, 1, 2], [10, 11]⟩]
    ∧ frameCount ⟨DType.int16, [2, 1, 1, 2], [10, 11, 20, 21]⟩ = 2
    ∧ storedFrame ⟨DType.int16, [2, 1, 1, 2], [10, 11, 20, 21]⟩ 1
        = ⟨DType.int16, [1, 1, 2], [20, 21]⟩
    ∧ (⟨DType.int16, [1, 1, 2], [20, 21]⟩ : NDArray)
        ∉ [(⟨DType.int16, [1, 1, 2], [10, 11]⟩ : NDArray)] :=
  ⟨rfl, rfl, rfl, by decide⟩

/-- Claim C9, confirmed: per-frame normalization failures are caught and
do not abort sibling frames; NoUsableFramesError propagates exactly when
zero frames survive, and otherwise the sequence of all successfully
normalized frames is returned (each surviving frame's output appears in
it). -/
theorem C9_per_frame_isolation (ds : Dataset) (a : NDArray) (frames : List NDArray)
    (hseg : segmentRaw a = .ok frames) (hmulti : 1 < frames.length) :
    (extractFrames ds a = .error ConvError.noUsableFrames
        ↔ ∀ f ∈ frames, normalizePixelArray ds f = none)
    ∧ ((∃ f ∈ frames, (normalizePixelArray ds f).isSome) →
        extractFrames ds a = .ok (frames.filterMap (normalizePixelArray ds)))
    ∧ (∀ f ∈ frames, ∀ g, normalizePixelArray ds f = some g →
        ∃ l, extractFrames ds a = .ok l ∧ g ∈ l) := by
  have hred : extractFrames ds a
      = if (frames.filterMap (normalizePixelArray ds)).isEmpty
        then .error ConvError.noUsableFrames
        else .ok (frames.filterMap (normalizePixelArray ds)) := by
    unfold extractFrames
    rw [hseg]
  by_cases hE : (frames.filterMap (normalizePixelArray ds)).isEmpty
  · have hnil : frames.filterMap (normalizePixelArray ds) = [] := by
      simpa [List.isEmpty_iff] using hE
    have hall : ∀ f ∈ frames, normalizePixelArray ds f = none :=
      List.filterMap_eq_nil_iff.mp hnil
    rw [hred, if_pos hE]
    refine ⟨iff_of_true rfl hall, ?_, ?_⟩
    · intro h
      obtain ⟨f, hf, hs⟩ := h
      rw [hall f hf] at hs
      simp at hs
    · intro f hf g hg
      rw [hall f hf] at hg
      cases hg
  · rw [hred, if_neg hE]
    have hne : frames.filterMap (normalizePixelArray ds) ≠ [] := by
      simpa [List.isEmpty_iff] using hE
    refine ⟨?_, fun _ => rfl, ?_⟩
    · refine iff_of_false (by simp) ?_
      intro hall
      exact hne (List.filterMap_eq_nil_iff.mpr hall)
    · intro f hf g hg
      exact ⟨_, rfl, List.mem_filterMap.mpr ⟨f, hf, hg⟩⟩

/-- Concretely: `bufferMixed` segments into two frames; under `dsMixed`
the all-99 frame fails normalization while the all-zero frame survives
(as a uniform 128 uint8 frame), and the surviving frame's output is
returned. -/
theorem C9_per_frame_isolation_witness :
    segmentRaw bufferMixed = .ok [frameZeros, frameNines]
    ∧ 1 < ([frameZeros, frameNines] : List NDArray).length
    ∧ normalizePixelArray dsMixed frameNines = none
    ∧ normalizePixelArray dsMixed frameZeros
        = some ⟨DType.uint8, [4, 4], List.replicate 16 128⟩
    ∧ ∃ lres, extractFrames dsMixed bufferMixed = .ok lres
        ∧ (⟨DType.uint8, [4, 4], List.replicate 16 128⟩ : NDArray) ∈ lres := by
  have h := C9_per_frame_isolation dsMixed bufferMixed [frameZeros, frameNines] rfl (by decide)
  refine ⟨rfl, by decide, rfl, rfl, ?_⟩
  exact h.2.2 frameZeros (by simp) ⟨DType.uint8, [4, 4], List.replicate 16 128⟩ rfl
